import Mathlib

/-!
Verification development for the blizbase repository.

Part 1 models the guild roster reconciler from `main.go`: the field-value
normalization (`normalizeValue`), the record store operations, the per-member
profile fetch with retries, and the full reconciliation pass (`blizzClient`
from the roster fetch onward, client construction and logging omitted).

Part 2 models the self-update controller from the companion source file:
`getGHCRToken`, `getRemoteDigest`, `getLocalDigest`, `pullImage`,
`getContainerID`, `restartContainer` and `watchForUpdates`, each over an
explicit model of the HTTP responses it consumes, with `watchForUpdates`
returning the ordered trace of container-engine calls it performs together
with its outcome (normal return versus non-zero process exit).
-/

set_option maxRecDepth 200000

/-- Equality of `Except` results is decidable; used to evaluate the model
on concrete inputs. -/
instance {e a : Type} [DecidableEq e] [DecidableEq a] : DecidableEq (Except e a) := fun x y =>
  match x, y with
  | .error u, .error v =>
    if h : u = v then isTrue (by rw [h]) else isFalse (fun hh => by cases hh; exact h rfl)
  | .ok u, .ok v =>
    if h : u = v then isTrue (by rw [h]) else isFalse (fun hh => by cases hh; exact h rfl)
  | .error _, .ok _ => isFalse (fun hh => by cases hh)
  | .ok _, .error _ => isFalse (fun hh => by cases hh)

namespace Blizbase

/-! ## Values and normalization

Go values flowing through the reconciler: `num` models a `float64` (numbers
read back from the record store are floats; a `float64` is modelled by the
exact rational it denotes), `intV` models a Go `int` (the candidate numeric
profile fields), `str` a string, and `null` a `nil` interface value
(`fmt.Sprintf` renders it as `<nil>`).  The `float32` arm of the source
function is not modelled: no `float32` value is ever passed to it in this
program. -/

inductive Value where
  | num (q : ℚ)
  | intV (n : ℤ)
  | str (s : String)
  | null
  deriving DecidableEq, Repr

/-- Smallest exponent `k` with `d ∣ 10 ^ k` (0 if none below the search
bound; every `float64` denominator is a power of two, for which `k ≤ 1074`
works). -/
def decPow (d : Nat) : Nat :=
  ((List.range 1100).find? (fun k => decide (d ∣ 10 ^ k))).getD 0

/-- Canonical decimal string of a non-integral rational with a finite
decimal expansion, mirroring `strconv.FormatFloat(n, 'f', -1, 64)` on a
value whose shortest representation is exact. -/
def ratDecString (q : ℚ) : String :=
  let k := decPow q.den
  let m := (q.num * (10 : ℤ) ^ k) / (q.den : ℤ)
  let ds := (toString m.natAbs).data
  let ds := List.replicate (k + 1 - ds.length) '0' ++ ds
  String.mk ((if q.num < 0 then ['-'] else []) ++
    ds.take (ds.length - k) ++ ['.'] ++ ds.drop (ds.length - k))

/-- Model of `normalizeValue` in `main.go`: an integral float maps to its
integer string form, a non-integral float to its canonical decimal string,
everything else through the `%v` default formatting. -/
def normalizeValue : Value → String
  | .num q => if q.den = 1 then toString q.num else ratDecString q
  | .intV n => toString n
  | .str s => s
  | .null => "<nil>"

/-! ## Records and the store -/

structure Record where
  id : String
  data : List (String × Value)
  deriving DecidableEq, Repr

/-- `record.Get(k)`: the stored value for field `k`, `nil` when unset. -/
def Record.get (r : Record) (k : String) : Value :=
  match r.data.find? (fun kv => kv.1 == k) with
  | some kv => kv.2
  | none => .null

/-- `record.Set(k, v)`. -/
def Record.set (r : Record) (k : String) (v : Value) : Record :=
  { r with data := (k, v) :: r.data.filter (fun kv => kv.1 != k) }

/-- The record store keeps numbers as `float64`: saving a record coerces the
Go `int` values it carries to floats, which is what a later `record.Get`
returns. -/
def coerceValue : Value → Value
  | .intV n => .num (n : ℚ)
  | v => v

def Record.coerced (r : Record) : Record :=
  { r with data := r.data.map (fun kv => (kv.1, coerceValue kv.2)) }

/-! ## Profiles and candidate field mappings -/

/-- The character profile fields read by `blizzClient` from
`WoWCharacterProfileSummary`. -/
structure Profile where
  id : ℤ
  name : String
  realmSlug : String
  realmName : String
  realmId : ℤ
  genderType : String
  genderName : String
  factionType : String
  factionName : String
  raceId : ℤ
  raceName : String
  characterClassId : ℤ
  characterClassName : String
  activeSpecId : ℤ
  activeSpecName : String
  guildName : String
  guildId : ℤ
  guildRealmName : String
  guildRealmId : ℤ
  guildRealmSlug : String
  level : ℤ
  experience : ℤ
  achievementPoints : ℤ
  lastLoginTimestamp : ℤ
  averageItemLevel : ℤ
  equippedItemLevel : ℤ
  activeTitleId : ℤ
  activeTitleName : String
  activeTitleDisplayString : String
  deriving DecidableEq, Repr

/-- The `fieldValues` map literal built for each fetched member. -/
def fieldValues (p : Profile) : List (String × Value) :=
  [ ("name", .str p.name),
    ("realm", .str p.realmSlug),
    ("realm_name", .str p.realmName),
    ("realm_id", .intV p.realmId),
    ("gender_type", .str p.genderType),
    ("gender_name", .str p.genderName),
    ("faction_type", .str p.factionType),
    ("faction_name", .str p.factionName),
    ("race_id", .intV p.raceId),
    ("race_name", .str p.raceName),
    ("character_class_id", .intV p.characterClassId),
    ("character_class_name", .str p.characterClassName),
    ("active_spec_id", .intV p.activeSpecId),
    ("active_spec_name", .str p.activeSpecName),
    ("guild_name", .str p.guildName),
    ("guild_id", .intV p.guildId),
    ("guild_realm_name", .str p.guildRealmName),
    ("guild_realm_id", .intV p.guildRealmId),
    ("guild_realm_slug", .str p.guildRealmSlug),
    ("level", .intV p.level),
    ("experience", .intV p.experience),
    ("achievement_points", .intV p.achievementPoints),
    ("last_login_timestamp", .intV p.lastLoginTimestamp),
    ("average_item_level", .intV p.averageItemLevel),
    ("equipped_item_level", .intV p.equippedItemLevel),
    ("active_title_id", .intV p.activeTitleId),
    ("active_title_name", .str p.activeTitleName),
    ("active_title_display_string", .str p.activeTitleDisplayString) ]

/-- The field names of the candidate mapping, in source order. -/
def candidateNames : List String :=
  [ "name", "realm", "realm_name", "realm_id", "gender_type", "gender_name",
    "faction_type", "faction_name", "race_id", "race_name",
    "character_class_id", "character_class_name", "active_spec_id",
    "active_spec_name", "guild_name", "guild_id", "guild_realm_name",
    "guild_realm_id", "guild_realm_slug", "level", "experience",
    "achievement_points", "last_login_timestamp", "average_item_level",
    "equipped_item_level", "active_title_id", "active_title_name",
    "active_title_display_string" ]

/-- The schema of the `characters` collection created by the migration:
the customized `id` field plus the 28 added fields. -/
def collectionFields : List String :=
  [ "id", "name", "realm", "gender_type", "gender_name", "faction_type",
    "faction_name", "race_id", "race_name", "character_class_id",
    "character_class_name", "active_spec_id", "active_spec_name",
    "realm_name", "realm_id", "guild_name", "guild_id", "guild_realm_name",
    "guild_realm_id", "guild_realm_slug", "level", "experience",
    "achievement_points", "last_login_timestamp", "average_item_level",
    "equipped_item_level", "active_title_id", "active_title_name",
    "active_title_display_string" ]

/-- Model of `setRecordFields`: set each candidate field whose name exists
in the collection schema. -/
def setRecordFields (rec : Record) (col : List String) (fields : List (String × Value)) : Record :=
  fields.foldl (fun r kv => if col.contains kv.1 then r.set kv.1 kv.2 else r) rec

/-- The `same` check of `blizzClient`: every candidate field equals the
stored value under normalization (the source breaks at the first
difference; the outcome is the same). -/
def recordMatches (rec : Record) (fields : List (String × Value)) : Bool :=
  fields.all (fun kv => normalizeValue (rec.get kv.1) == normalizeValue kv.2)

/-! ## Profile fetch with retries -/

/-- One result of `WoWCharacterProfileSummary`: the profile value, whether
the response header was non-nil, and whether an error was returned. -/
structure FetchResult where
  profile : Profile
  headerPresent : Bool
  isError : Bool

/-- A roster member together with the sequence of results its profile
fetch would produce (attempt `i` is the result of the `i+1`-th call). -/
structure Member where
  name : String
  realmSlug : String
  attempts : Nat → FetchResult

def maxRetries : Nat := 3

/-- `time.Second / 10` in milliseconds: the fixed backoff unit. -/
def sleepUnitMs : Nat := 100

/-- The retry loop `for attempt := 1; attempt < maxRetries && header == nil`.
State: remaining attempt indices, current result, calls made so far, sleep
durations (ms) performed so far. -/
def retryAux (attempts : Nat → FetchResult) :
    List Nat → FetchResult → Nat → List Nat → FetchResult × Nat × List Nat
  | [], cur, calls, sleeps => (cur, calls, sleeps)
  | a :: rest, cur, calls, sleeps =>
    if cur.headerPresent then (cur, calls, sleeps)
    else retryAux attempts rest (attempts a) (calls + 1) (sleeps ++ [a * sleepUnitMs])

/-- The initial fetch followed by the retry loop; returns the final result,
the total number of fetch calls, and the sleeps performed. -/
def fetchWithRetries (attempts : Nat → FetchResult) : FetchResult × Nat × List Nat :=
  retryAux attempts (List.range' 1 (maxRetries - 1)) (attempts 0) 1 []

def fetchRes (m : Member) : FetchResult := (fetchWithRetries m.attempts).1

/-- A member whose final fetch result carries no error and a non-nil
header: the member is processed rather than skipped. -/
def memberOk (m : Member) : Prop :=
  (fetchRes m).isError = false ∧ (fetchRes m).headerPresent = true

instance (m : Member) : Decidable (memberOk m) := by
  unfold memberOk
  infer_instance

/-- `strconv.Itoa(memberInfo.ID)` for the member's final fetch result. -/
def idOf (m : Member) : String := toString (fetchRes m).profile.id

def fvOf (m : Member) : List (String × Value) := fieldValues (fetchRes m).profile

/-! ## The reconciliation pass -/

structure LoopState where
  store : List Record
  rosterKeys : List String
  saves : List String
  deriving Repr

/-- The `existingRecords` map: all prior records with a non-empty id. -/
def loadExisting (store : List Record) : List Record :=
  store.filter (fun r => r.id != "")

/-- Lookup in the `existingRecords` map by id. -/
def findRecord (recs : List Record) (i : String) : Option Record :=
  recs.find? (fun r => r.id == i)

/-- `app.Save` on a loaded record: replace the stored record with that id. -/
def saveExisting (store : List Record) (r : Record) : List Record :=
  store.map (fun s => if s.id == r.id then r.coerced else s)

/-- `app.Save` on a fresh record: insert it. -/
def saveNew (store : List Record) (r : Record) : List Record :=
  store ++ [r.coerced]

/-- The body of the member loop of `blizzClient`: fetch with retries, skip
on error or on a still-nil header, otherwise mark the id as seen, diff
against the existing record under normalization and save when new or
different.  Lookups go to the `existingRecords` snapshot `ex` taken before
the loop; `saves` records the ids passed to `app.Save`, in order. -/
def processMember (ex : List Record) (st : LoopState) (m : Member) : LoopState :=
  let res := fetchRes m
  if res.isError = true then st
  else if res.headerPresent = false then st
  else
    let idValue := toString res.profile.id
    let fv := fieldValues res.profile
    let st1 : LoopState := { st with rosterKeys := st.rosterKeys ++ [idValue] }
    match findRecord ex idValue with
    | some rec =>
      if recordMatches rec fv then st1
      else
        { st1 with
          store := saveExisting st1.store (setRecordFields rec collectionFields fv),
          saves := st1.saves ++ [idValue] }
    | none =>
      { st1 with
        store := saveNew st1.store (setRecordFields { id := idValue, data := [] } collectionFields fv),
        saves := st1.saves ++ [idValue] }

/-- Input of one pass: whether the roster fetch returned an error, the
member list that accompanied it (the client's zero value is the empty
list), and whether listing the existing records failed. -/
structure PassInput where
  rosterErr : Bool
  members : List Member
  listErr : Bool

structure PassResult where
  store : List Record
  saves : List String
  deletes : List String

/-- The member loop of `blizzClient`, folded over the roster. -/
def passLoop (input : PassInput) (priorStore : List Record) : LoopState :=
  input.members.foldl (processMember (loadExisting priorStore)) ⟨priorStore, [], []⟩

/-- The cleanup phase: the ids of every record of the `existingRecords`
snapshot that was not marked as seen during the loop. -/
def passDeletes (input : PassInput) (priorStore : List Record) : List String :=
  ((loadExisting priorStore).filter
    (fun r => !((passLoop input priorStore).rosterKeys.contains r.id))).map Record.id

/-- Model of `blizzClient` from the roster fetch onward.  A roster fetch
error is logged but does not abort: the source has no early return there,
so `rosterErr` does not influence the behavior.  A failure listing
existing records does return early.  After the member loop, every record
of the `existingRecords` snapshot whose id was not marked as seen is
deleted. -/
def reconcilePass (input : PassInput) (priorStore : List Record) : PassResult :=
  if input.listErr then { store := priorStore, saves := [], deletes := [] }
  else
    { store := (passLoop input priorStore).store.filter
        (fun r => !((passDeletes input priorStore).contains r.id)),
      saves := (passLoop input priorStore).saves,
      deletes := passDeletes input priorStore }

/-! ## Self-update controller -/

def ghcrImage : String := "ghcr.io/jrsmile/blizbase"
def ghcrTag : String := "latest"
def ghcrImageRef : String := ghcrImage ++ ":" ++ ghcrTag

/-- Response to the anonymous GHCR token request; `token = none` models a
body that fails to decode. -/
structure TokenResp where
  status : Nat
  token : Option String
  deriving DecidableEq, Repr

/-- Response to the manifest HEAD request; `digestHeader = ""` models a
missing `Docker-Content-Digest` header. -/
structure ManifestResp where
  status : Nat
  digestHeader : String
  deriving DecidableEq, Repr

/-- Model of `getGHCRToken`. -/
def getGHCRToken (r : TokenResp) : Except String String :=
  if r.status ≠ 200 then .error "GHCR token request failed"
  else
    match r.token with
    | none => .error "failed to decode token response"
    | some t => .ok t

/-- Model of `getRemoteDigest`: token exchange, then the manifest HEAD;
non-200 or a missing digest header is an error. -/
def getRemoteDigest (tok : TokenResp) (man : ManifestResp) : Except String String :=
  match getGHCRToken tok with
  | .error e => .error e
  | .ok _ =>
    if man.status ≠ 200 then .error "manifest request failed"
    else if man.digestHeader = "" then .error "no Docker-Content-Digest header in registry response"
    else .ok man.digestHeader

/-- Response to the local image inspect; `repoDigests = none` models a
body that fails to decode. -/
structure InspectResp where
  status : Nat
  repoDigests : Option (List String)
  deriving DecidableEq, Repr

/-- The repo-digest marker `ghcr.io/jrsmile/blizbase@`. -/
def digestPre : String := ghcrImage ++ "@"

/-- `strings.HasPrefix(s, pre)`, computed on the character lists. -/
def strHasPre (pre s : String) : Bool :=
  s.data.take pre.data.length == pre.data

/-- `strings.TrimPrefix(s, pre)` for a string known to carry the marker,
computed on the character lists. -/
def strDropPre (s pre : String) : String :=
  String.mk (s.data.drop pre.data.length)

/-- Model of `getLocalDigest`: 404 means the image is absent (empty digest,
no error); any other non-200 is an error; otherwise the first `RepoDigests`
entry carrying the image-name marker is trimmed to the bare digest, and no
matching entry again yields the empty digest with no error. -/
def getLocalDigest (r : InspectResp) : Except String String :=
  if r.status = 404 then .ok ""
  else if r.status ≠ 200 then .error "image inspect failed"
  else
    match r.repoDigests with
    | none => .error "failed to decode image info"
    | some ds =>
      match ds.find? (fun d => strHasPre digestPre d) with
      | some d => .ok (strDropPre d digestPre)
      | none => .ok ""

/-- One newline-delimited progress event of the pull stream; only the
embedded `error` field matters. -/
structure PullEvent where
  errorField : Option String
  deriving DecidableEq, Repr

structure PullResp where
  status : Nat
  events : List PullEvent
  deriving DecidableEq, Repr

/-- Model of `pullImage`: non-200 is an error; otherwise the progress
stream is consumed, discarding events until one carries an error field. -/
def pullImage (r : PullResp) : Except String Unit :=
  if r.status ≠ 200 then .error "pull failed"
  else
    match r.events.find? (fun e => e.errorField.isSome) with
    | some _ => .error "pull error"
    | none => .ok ()

/-- Response to the ancestry-filtered container listing; `ids = none`
models a body that fails to decode. -/
structure ListResp where
  status : Nat
  ids : Option (List String)
  deriving DecidableEq, Repr

/-- Model of `getContainerID`: the first listed container's id, or the
empty string when the listing is empty. -/
def getContainerID (r : ListResp) : Except String String :=
  if r.status ≠ 200 then .error "list containers failed"
  else
    match r.ids with
    | none => .error "failed to decode container list"
    | some [] => .ok ""
    | some (c :: _) => .ok c

/-- Model of `restartContainer`: 204 and 200 succeed, everything else is an
error. -/
def restartContainer (status : Nat) (_cid : String) : Except String Unit :=
  if status ≠ 204 ∧ status ≠ 200 then .error "restart failed" else .ok ()

/-- A container-engine call performed by the controller, in trace order. -/
inductive EngineCall where
  | inspectLocal
  | pull
  | listContainers
  | restart (cid : String)
  deriving DecidableEq, Repr

/-- How `watchForUpdates` ends: a normal return or `os.Exit(code)`. -/
inductive UpdateOutcome where
  | returned
  | exited (code : Nat)
  deriving DecidableEq, Repr

/-- All responses one self-update check would receive. -/
structure UpdateEnv where
  token : TokenResp
  manifest : ManifestResp
  inspect : InspectResp
  pullResp : PullResp
  listResp : ListResp
  restartStatus : Nat
  deriving Repr

/-- Model of `watchForUpdates`: remote digest, local digest, equality
check, pull, ancestry listing, restart — returning the ordered list of
engine calls made and the outcome.  A missing target after a successful
pull and a failed restart both exit the process with status 1. -/
def watchForUpdates (env : UpdateEnv) : List EngineCall × UpdateOutcome :=
  match getRemoteDigest env.token env.manifest with
  | .error _ => ([], .returned)
  | .ok remoteDigest =>
    match getLocalDigest env.inspect with
    | .error _ => ([.inspectLocal], .returned)
    | .ok localDigest =>
      if localDigest = remoteDigest then ([.inspectLocal], .returned)
      else
        match pullImage env.pullResp with
        | .error _ => ([.inspectLocal, .pull], .returned)
        | .ok _ =>
          match getContainerID env.listResp with
          | .error _ => ([.inspectLocal, .pull, .listContainers], .returned)
          | .ok cid =>
            if cid = "" then ([.inspectLocal, .pull, .listContainers], .exited 1)
            else
              match restartContainer env.restartStatus cid with
              | .error _ => ([.inspectLocal, .pull, .listContainers, .restart cid], .exited 1)
              | .ok _ => ([.inspectLocal, .pull, .listContainers, .restart cid], .returned)

/-! ## Concrete inputs used to evaluate the model -/

/-- A profile with every field zeroed, the Go zero value. -/
def zeroProfile : Profile :=
  { id := 0, name := "", realmSlug := "", realmName := "", realmId := 0,
    genderType := "", genderName := "", factionType := "", factionName := "",
    raceId := 0, raceName := "", characterClassId := 0, characterClassName := "",
    activeSpecId := 0, activeSpecName := "", guildName := "", guildId := 0,
    guildRealmName := "", guildRealmId := 0, guildRealmSlug := "",
    level := 0, experience := 0, achievementPoints := 0, lastLoginTimestamp := 0,
    averageItemLevel := 0, equippedItemLevel := 0, activeTitleId := 0,
    activeTitleName := "", activeTitleDisplayString := "" }

/-- The exact rational value of the `float64` 5.5. -/
def ratFiveFive : ℚ := ⟨11, 2, by decide, by decide⟩

/-- A record present in the store before a pass in which the roster fetch
fails. -/
def c1Prior : Record := { id := "1", data := [("name", .str "Alice")] }

/-- A pass whose roster fetch returned an error; the error's zero-value
roster is empty. -/
def c1Input : PassInput := { rosterErr := true, members := [], listErr := false }

/-- A member whose profile fetch yields a nil header on every attempt. -/
def c2Member : Member :=
  { name := "Bob", realmSlug := "some-realm",
    attempts := fun _ => { profile := zeroProfile, headerPresent := false, isError := false } }

/-- The existing record of that member (character id 7). -/
def c2Prior : Record := { id := "7", data := [("name", .str "Bob")] }

def c2Input : PassInput := { rosterErr := false, members := [c2Member], listErr := false }

/-- Another member whose profile fetch yields a nil header on every
attempt. -/
def c3Member : Member :=
  { name := "Cara", realmSlug := "some-realm",
    attempts := fun _ => { profile := zeroProfile, headerPresent := false, isError := false } }

/-- A member whose profile fetch succeeds immediately. -/
def c5Profile : Profile := { zeroProfile with id := 42, name := "Ayla", level := 80 }

def c5Member : Member :=
  { name := "Ayla", realmSlug := "some-realm",
    attempts := fun _ => { profile := c5Profile, headerPresent := true, isError := false } }

def c5Input : PassInput := { rosterErr := false, members := [c5Member], listErr := false }

/-- Steady state: local and remote digest agree. -/
def c6Env : UpdateEnv :=
  { token := { status := 200, token := some "tok" },
    manifest := { status := 200, digestHeader := "sha256:AAA" },
    inspect := { status := 200, repoDigests := some [digestPre ++ "sha256:AAA"] },
    pullResp := { status := 200, events := [] },
    listResp := { status := 200, ids := some ["cid1"] },
    restartStatus := 204 }

/-- New remote digest, healthy engine: the full update path. -/
def c7Env : UpdateEnv :=
  { token := { status := 200, token := some "tok" },
    manifest := { status := 200, digestHeader := "sha256:AAA" },
    inspect := { status := 200, repoDigests := some [digestPre ++ "sha256:BBB"] },
    pullResp := { status := 200, events := [] },
    listResp := { status := 200, ids := some ["cid1"] },
    restartStatus := 204 }

/-- New remote digest, successful pull, but no container matches the
ancestry filter. -/
def c8Env : UpdateEnv :=
  { token := { status := 200, token := some "tok" },
    manifest := { status := 200, digestHeader := "sha256:AAA" },
    inspect := { status := 200, repoDigests := some [digestPre ++ "sha256:BBB"] },
    pullResp := { status := 200, events := [] },
    listResp := { status := 200, ids := some [] },
    restartStatus := 204 }

/-- The local image inspect fails with a 500. -/
def c9Env : UpdateEnv :=
  { token := { status := 200, token := some "tok" },
    manifest := { status := 200, digestHeader := "sha256:AAA" },
    inspect := { status := 500, repoDigests := none },
    pullResp := { status := 200, events := [] },
    listResp := { status := 200, ids := some ["cid1"] },
    restartStatus := 204 }

/-- A 200 inspect whose RepoDigests carry no entry for the configured
image name. -/
def c10Inspect : InspectResp :=
  { status := 200, repoDigests := some ["docker.io/other/image@sha256:XYZ"] }

def c10Env : UpdateEnv :=
  { token := { status := 200, token := some "tok" },
    manifest := { status := 200, digestHeader := "sha256:AAA" },
    inspect := c10Inspect,
    pullResp := { status := 200, events := [] },
    listResp := { status := 200, ids := some ["cid1"] },
    restartStatus := 204 }

/-! ## Helper lemmas about records, fields and normalization -/

theorem contains_iff_mem {a : String} {l : List String} : l.contains a = true ↔ a ∈ l :=
  List.elem_iff

theorem find?_filter_of_imp {α : Type} (l : List α) (p q : α → Bool)
    (h : ∀ x, q x = true → p x = true) : (l.filter p).find? q = l.find? q := by
  induction l with
  | nil => rfl
  | cons a t ih =>
    by_cases hq : q a = true
    · rw [List.filter_cons, if_pos (h a hq), List.find?_cons_of_pos _ hq,
        List.find?_cons_of_pos _ hq]
    · cases hp : p a
      · rw [List.filter_cons, if_neg (by simp [hp]), ih, List.find?_cons_of_neg _ hq]
      · rw [List.filter_cons, if_pos (by simp [hp]), List.find?_cons_of_neg _ hq,
          List.find?_cons_of_neg _ hq, ih]

theorem Record.get_set_self (r : Record) (k : String) (v : Value) :
    (r.set k v).get k = v := by
  unfold Record.get Record.set
  simp [List.find?_cons]

theorem Record.get_set_other (r : Record) {k k' : String} (v : Value) (h : k' ≠ k) :
    (r.set k v).get k' = r.get k' := by
  unfold Record.get Record.set
  rw [List.find?_cons_of_neg _ (by simp [Ne.symm h]),
    find?_filter_of_imp _ _ _ (fun kv hkv => by
      have h1 : kv.1 = k' := by simpa using hkv
      simp [h1, h])]

theorem setRecordFields_cons (r : Record) (col : List String) (a : String × Value)
    (t : List (String × Value)) :
    setRecordFields r col (a :: t) =
      setRecordFields (if col.contains a.1 then r.set a.1 a.2 else r) col t := rfl

theorem setRecordFields_id (r : Record) (col : List String) (fv : List (String × Value)) :
    (setRecordFields r col fv).id = r.id := by
  induction fv generalizing r with
  | nil => rfl
  | cons a t ih =>
    rw [setRecordFields_cons, ih]
    split
    · rfl
    · rfl

theorem Record.get_coerced (r : Record) (k : String) :
    r.coerced.get k = coerceValue (r.get k) := by
  have hmap : ∀ l : List (String × Value),
      (l.map (fun kv => (kv.1, coerceValue kv.2))).find? (fun kv => kv.1 == k) =
        (l.find? (fun kv => kv.1 == k)).map (fun kv => (kv.1, coerceValue kv.2)) := by
    intro l
    induction l with
    | nil => rfl
    | cons a t ih =>
      by_cases hb : (a.1 == k) = true
      · simp [List.map_cons, List.find?_cons, hb]
      · have hb' : (a.1 == k) = false := by simpa using hb
        simp [List.map_cons, List.find?_cons, hb', ih]
  unfold Record.get Record.coerced
  rw [hmap]
  cases r.data.find? (fun kv => kv.1 == k) with
  | none => rfl
  | some kv => rfl

theorem get_setRecordFields_not_mem (fv : List (String × Value)) (r : Record)
    (col : List String) {k : String} (h : k ∉ fv.map Prod.fst) :
    (setRecordFields r col fv).get k = r.get k := by
  induction fv generalizing r with
  | nil => rfl
  | cons a t ih =>
    simp only [List.map_cons, List.mem_cons, not_or] at h
    rw [setRecordFields_cons, ih _ h.2]
    by_cases hc : col.contains a.1
    · rw [if_pos hc, Record.get_set_other _ _ h.1]
    · rw [if_neg hc]

theorem get_setRecordFields_mem (fv : List (String × Value)) (r : Record)
    (col : List String) {kv : String × Value} (hkv : kv ∈ fv)
    (hnd : (fv.map Prod.fst).Nodup) (hcol : ∀ kv' ∈ fv, col.contains kv'.1 = true) :
    (setRecordFields r col fv).get kv.1 = kv.2 := by
  induction fv generalizing r with
  | nil => cases hkv
  | cons a t ih =>
    rw [List.map_cons, List.nodup_cons] at hnd
    rw [setRecordFields_cons]
    rcases List.mem_cons.mp hkv with rfl | hkv'
    · rw [if_pos (hcol kv (List.mem_cons_self _ _)),
        get_setRecordFields_not_mem _ _ _ hnd.1, Record.get_set_self]
    · exact ih _ hkv' hnd.2 (fun kv' h' => hcol kv' (List.mem_cons_of_mem _ h'))

theorem normalizeValue_coerceValue (v : Value) :
    normalizeValue (coerceValue v) = normalizeValue v := by
  cases v with
  | intV n => simp [coerceValue, normalizeValue, Rat.intCast_den, Rat.intCast_num]
  | num q => rfl
  | str s => rfl
  | null => rfl

theorem recordMatches_of_get (r : Record) (fv : List (String × Value))
    (h : ∀ kv ∈ fv, r.get kv.1 = coerceValue kv.2) : recordMatches r fv = true := by
  unfold recordMatches
  rw [List.all_eq_true]
  intro kv hkv
  rw [h kv hkv, normalizeValue_coerceValue]
  exact beq_self_eq_true _

theorem fieldValues_keys (p : Profile) : (fieldValues p).map Prod.fst = candidateNames := rfl

theorem fieldValues_keys_nodup (p : Profile) : ((fieldValues p).map Prod.fst).Nodup := by
  rw [fieldValues_keys]; decide

theorem fieldValues_sub_col (p : Profile) :
    ∀ kv ∈ fieldValues p, collectionFields.contains kv.1 = true := by
  intro kv h
  have h1 : kv.1 ∈ (fieldValues p).map Prod.fst := List.mem_map_of_mem _ h
  rw [fieldValues_keys] at h1
  have h2 : ∀ s ∈ candidateNames, collectionFields.contains s = true := by decide
  exact h2 _ h1

theorem setRecordFields_coerced_get (r : Record) (p : Profile) :
    ∀ kv ∈ fieldValues p,
      ((setRecordFields r collectionFields (fieldValues p)).coerced).get kv.1 =
        coerceValue kv.2 := by
  intro kv h
  rw [Record.get_coerced,
    get_setRecordFields_mem _ _ _ h (fieldValues_keys_nodup p) (fieldValues_sub_col p)]

theorem setRecordFields_coerced_matches (r : Record) (p : Profile) :
    recordMatches ((setRecordFields r collectionFields (fieldValues p)).coerced)
      (fieldValues p) = true :=
  recordMatches_of_get _ _ (setRecordFields_coerced_get r p)

theorem Record.coerced_id (r : Record) : r.coerced.id = r.id := rfl

theorem findRecord_some_id {recs : List Record} {i : String} {rec : Record}
    (h : findRecord recs i = some rec) : rec.id = i := by
  have h1 := List.find?_some h
  simpa using h1

theorem findRecord_some_mem {recs : List Record} {i : String} {rec : Record}
    (h : findRecord recs i = some rec) : rec ∈ recs :=
  List.mem_of_find?_eq_some h

theorem findRecord_eq_of_nodup {recs : List Record} {r : Record}
    (hnd : (recs.map Record.id).Nodup) (hr : r ∈ recs) : findRecord recs r.id = some r := by
  induction recs with
  | nil => cases hr
  | cons a t ih =>
    rw [List.map_cons, List.nodup_cons] at hnd
    rcases List.mem_cons.mp hr with rfl | hr'
    · unfold findRecord
      simp [List.find?_cons]
    · have hne : a.id ≠ r.id := fun he => hnd.1 (he ▸ List.mem_map_of_mem _ hr')
      unfold findRecord at ih ⊢
      rw [List.find?_cons_of_neg _ (by simp [hne])]
      exact ih hnd.2 hr'

theorem findRecord_some_of_mem {recs : List Record} {r : Record} (hr : r ∈ recs) :
    ∃ x, findRecord recs r.id = some x ∧ x ∈ recs ∧ x.id = r.id := by
  have h1 : (recs.find? (fun s => s.id == r.id)).isSome = true :=
    List.find?_isSome.mpr ⟨r, hr, beq_self_eq_true _⟩
  rcases hx : recs.find? (fun s => s.id == r.id) with _ | x
  · rw [hx] at h1; cases h1
  · exact ⟨x, hx, List.mem_of_find?_eq_some hx, findRecord_some_id hx⟩

/-! ## Helper lemmas about the member loop -/

theorem processMember_skip (ex : List Record) (st : LoopState) (m : Member)
    (h : ¬ memberOk m) : processMember ex st m = st := by
  unfold processMember
  by_cases he : (fetchRes m).isError = true
  · rw [if_pos he]
  · rw [if_neg he]
    have hh : (fetchRes m).headerPresent = false := by
      rcases Bool.eq_false_or_eq_true (fetchRes m).headerPresent with h1 | h1
      · exact absurd ⟨by simpa using he, h1⟩ h
      · exact h1
    rw [if_pos hh]

theorem processMember_found_same (ex : List Record) (st : LoopState) (m : Member)
    (rec : Record) (hok : memberOk m)
    (h1 : findRecord ex (idOf m) = some rec) (h2 : recordMatches rec (fvOf m) = true) :
    processMember ex st m = { st with rosterKeys := st.rosterKeys ++ [idOf m] } := by
  obtain ⟨he, hh⟩ := hok
  unfold idOf at h1
  unfold fvOf at h2
  unfold processMember idOf
  rw [if_neg (by simp [he]), if_neg (by simp [hh])]
  simp only [h1, h2, if_true]

theorem processMember_found_diff (ex : List Record) (st : LoopState) (m : Member)
    (rec : Record) (hok : memberOk m)
    (h1 : findRecord ex (idOf m) = some rec) (h2 : recordMatches rec (fvOf m) = false) :
    processMember ex st m =
      { store := saveExisting st.store (setRecordFields rec collectionFields (fvOf m)),
        rosterKeys := st.rosterKeys ++ [idOf m],
        saves := st.saves ++ [idOf m] } := by
  obtain ⟨he, hh⟩ := hok
  unfold idOf at h1
  unfold fvOf at h2
  unfold processMember idOf fvOf
  rw [if_neg (by simp [he]), if_neg (by simp [hh])]
  simp only [h1, h2, Bool.false_eq_true, if_false]

theorem processMember_new (ex : List Record) (st : LoopState) (m : Member)
    (hok : memberOk m) (h1 : findRecord ex (idOf m) = none) :
    processMember ex st m =
      { store := saveNew st.store
          (setRecordFields { id := idOf m, data := [] } collectionFields (fvOf m)),
        rosterKeys := st.rosterKeys ++ [idOf m],
        saves := st.saves ++ [idOf m] } := by
  obtain ⟨he, hh⟩ := hok
  unfold idOf at h1
  unfold processMember idOf fvOf
  rw [if_neg (by simp [he]), if_neg (by simp [hh])]
  simp only [h1]

theorem processMember_cases (ex : List Record) (st : LoopState) (m : Member)
    (hok : memberOk m) :
    (∃ rec, findRecord ex (idOf m) = some rec ∧ recordMatches rec (fvOf m) = true ∧
      processMember ex st m = { st with rosterKeys := st.rosterKeys ++ [idOf m] }) ∨
    (∃ rec, findRecord ex (idOf m) = some rec ∧ recordMatches rec (fvOf m) = false ∧
      processMember ex st m =
        { store := saveExisting st.store (setRecordFields rec collectionFields (fvOf m)),
          rosterKeys := st.rosterKeys ++ [idOf m],
          saves := st.saves ++ [idOf m] }) ∨
    (findRecord ex (idOf m) = none ∧
      processMember ex st m =
        { store := saveNew st.store
            (setRecordFields { id := idOf m, data := [] } collectionFields (fvOf m)),
          rosterKeys := st.rosterKeys ++ [idOf m],
          saves := st.saves ++ [idOf m] }) := by
  rcases h1 : findRecord ex (idOf m) with _ | rec
  · exact Or.inr (Or.inr ⟨rfl, processMember_new ex st m hok h1⟩)
  · cases h2 : recordMatches rec (fvOf m)
    · exact Or.inr (Or.inl ⟨rec, rfl, h2, processMember_found_diff ex st m rec hok h1 h2⟩)
    · exact Or.inl ⟨rec, rfl, h2, processMember_found_same ex st m rec hok h1 h2⟩

theorem processMember_rosterKeys (ex : List Record) (st : LoopState) (m : Member)
    (hok : memberOk m) :
    (processMember ex st m).rosterKeys = st.rosterKeys ++ [idOf m] := by
  rcases processMember_cases ex st m hok with ⟨r, _, _, h⟩ | ⟨r, _, _, h⟩ | ⟨_, h⟩ <;> rw [h]

theorem fold_rosterKeys (ex : List Record) (ms : List Member) (st : LoopState)
    (hok : ∀ m ∈ ms, memberOk m) :
    (ms.foldl (processMember ex) st).rosterKeys = st.rosterKeys ++ ms.map idOf := by
  induction ms generalizing st with
  | nil => simp
  | cons m t ih =>
    rw [List.foldl_cons, ih _ (fun m' h' => hok m' (List.mem_cons_of_mem _ h')),
      processMember_rosterKeys _ _ _ (hok m (List.mem_cons_self _ _))]
    simp

theorem processMember_store_preserves (ex : List Record) (st : LoopState) (m : Member)
    (r : Record) (hr : r ∈ st.store) (hid : memberOk m → idOf m ≠ r.id) :
    r ∈ (processMember ex st m).store := by
  by_cases hok : memberOk m
  · rcases processMember_cases ex st m hok with ⟨rec, hf, hm, he⟩ | ⟨rec, hf, hm, he⟩ | ⟨hf, he⟩
    · rw [he]; exact hr
    · rw [he]
      unfold saveExisting
      refine List.mem_map.mpr ⟨r, hr, ?_⟩
      have hb : (r.id == (setRecordFields rec collectionFields (fvOf m)).id) = false := by
        rw [setRecordFields_id, findRecord_some_id hf]
        exact beq_eq_false_iff_ne.mpr (Ne.symm (hid hok))
      rw [hb]
      simp
    · rw [he]
      unfold saveNew
      exact List.mem_append.mpr (Or.inl hr)
  · rw [processMember_skip _ _ _ hok]; exact hr

theorem fold_store_preserves (ex : List Record) (ms : List Member) (st : LoopState)
    (r : Record) (hr : r ∈ st.store)
    (h : ∀ m ∈ ms, memberOk m → idOf m ≠ r.id) :
    r ∈ (ms.foldl (processMember ex) st).store := by
  induction ms generalizing st with
  | nil => exact hr
  | cons m t ih =>
    rw [List.foldl_cons]
    exact ih _ (processMember_store_preserves ex st m r hr (h m (List.mem_cons_self _ _)))
      (fun m' h' => h m' (List.mem_cons_of_mem _ h'))

theorem processMember_store_sub (ex : List Record) (st : LoopState) (m : Member)
    (r : Record) (hr : r ∈ (processMember ex st m).store) :
    r ∈ st.store ∨ (memberOk m ∧ r.id = idOf m) := by
  by_cases hok : memberOk m
  · rcases processMember_cases ex st m hok with ⟨rec, hf, hm, he⟩ | ⟨rec, hf, hm, he⟩ | ⟨hf, he⟩
    · rw [he] at hr; exact Or.inl hr
    · rw [he] at hr
      unfold saveExisting at hr
      rcases List.mem_map.mp hr with ⟨s, hs, hmap⟩
      by_cases hb : (s.id == (setRecordFields rec collectionFields (fvOf m)).id) = true
      · rw [if_pos hb] at hmap
        refine Or.inr ⟨hok, ?_⟩
        rw [← hmap, Record.coerced_id, setRecordFields_id, findRecord_some_id hf]
      · rw [if_neg hb] at hmap
        rw [← hmap]
        exact Or.inl hs
    · rw [he] at hr
      unfold saveNew at hr
      rcases List.mem_append.mp hr with h | h
      · exact Or.inl h
      · refine Or.inr ⟨hok, ?_⟩
        rw [List.mem_singleton.mp h, Record.coerced_id, setRecordFields_id]
  · rw [processMember_skip _ _ _ hok] at hr; exact Or.inl hr

theorem fold_store_sub (ex : List Record) (ms : List Member) (st : LoopState)
    (r : Record) (hr : r ∈ (ms.foldl (processMember ex) st).store) :
    r ∈ st.store ∨ ∃ m ∈ ms, memberOk m ∧ r.id = idOf m := by
  induction ms generalizing st with
  | nil => exact Or.inl hr
  | cons m t ih =>
    rw [List.foldl_cons] at hr
    rcases ih _ hr with h | ⟨m', hm', h⟩
    · rcases processMember_store_sub _ _ _ _ h with h2 | h2
      · exact Or.inl h2
      · exact Or.inr ⟨m, List.mem_cons_self _ _, h2⟩
    · exact Or.inr ⟨m', List.mem_cons_of_mem _ hm', h⟩

theorem step_pinned_pres (ex : List Record) (st : LoopState) (m : Member) (v : String)
    (hmne : memberOk m → idOf m ≠ v)
    (h1 : ∀ r, findRecord ex v = some r → r ∈ st.store)
    (h2 : ∀ r ∈ st.store, r.id = v → findRecord ex v = some r) :
    (∀ r, findRecord ex v = some r → r ∈ (processMember ex st m).store) ∧
    (∀ r ∈ (processMember ex st m).store, r.id = v → findRecord ex v = some r) := by
  constructor
  · intro r hf
    refine processMember_store_preserves ex st m r (h1 r hf) (fun hok => ?_)
    rw [findRecord_some_id hf]
    exact hmne hok
  · intro r hr hid
    rcases processMember_store_sub ex st m r hr with h | ⟨hok, hcontra⟩
    · exact h2 r h hid
    · exact absurd (hcontra.symm.trans hid) (hmne hok)

theorem step_establishes_good (ex : List Record) (st : LoopState) (m : Member)
    (hok : memberOk m)
    (h1 : ∀ r, findRecord ex (idOf m) = some r → r ∈ st.store)
    (h2 : ∀ r ∈ st.store, r.id = idOf m → findRecord ex (idOf m) = some r) :
    (∀ r ∈ (processMember ex st m).store, r.id = idOf m → recordMatches r (fvOf m) = true) ∧
    (∃ r ∈ (processMember ex st m).store, r.id = idOf m ∧ recordMatches r (fvOf m) = true) := by
  rcases processMember_cases ex st m hok with ⟨rec, hf, hm, he⟩ | ⟨rec, hf, hm, he⟩ | ⟨hf, he⟩
  · rw [he]
    constructor
    · intro r hr hid
      have h3 := h2 r hr hid
      rw [hf] at h3
      injection h3 with h4
      rw [← h4]
      exact hm
    · exact ⟨rec, h1 rec hf, findRecord_some_id hf, hm⟩
  · rw [he]
    constructor
    · intro r hr hid
      unfold saveExisting at hr
      rcases List.mem_map.mp hr with ⟨s, hs, hmap⟩
      by_cases hb : (s.id == (setRecordFields rec collectionFields (fvOf m)).id) = true
      · rw [if_pos hb] at hmap
        rw [← hmap]
        unfold fvOf
        exact setRecordFields_coerced_matches rec _
      · rw [if_neg hb] at hmap
        have hsid : s.id = idOf m := by rw [hmap]; exact hid
        refine absurd ?_ hb
        rw [hsid, setRecordFields_id, findRecord_some_id hf]
        exact beq_self_eq_true _
    · refine ⟨(setRecordFields rec collectionFields (fvOf m)).coerced, ?_, ?_, ?_⟩
      · unfold saveExisting
        refine List.mem_map.mpr ⟨rec, h1 rec hf, ?_⟩
        rw [if_pos (by rw [setRecordFields_id]; exact beq_self_eq_true _)]
      · rw [Record.coerced_id, setRecordFields_id, findRecord_some_id hf]
      · unfold fvOf
        exact setRecordFields_coerced_matches rec _
  · rw [he]
    constructor
    · intro r hr hid
      unfold saveNew at hr
      rcases List.mem_append.mp hr with h | h
      · have h3 := h2 r h hid
        rw [hf] at h3
        cases h3
      · rw [List.mem_singleton.mp h]
        unfold fvOf
        exact setRecordFields_coerced_matches _ _
    · refine ⟨(setRecordFields { id := idOf m, data := [] } collectionFields (fvOf m)).coerced,
        ?_, ?_, ?_⟩
      · unfold saveNew
        exact List.mem_append.mpr (Or.inr (List.mem_singleton.mpr rfl))
      · rw [Record.coerced_id, setRecordFields_id]
      · unfold fvOf
        exact setRecordFields_coerced_matches _ _

theorem step_pres_good (ex : List Record) (st : LoopState) (m : Member) (v : String)
    (fv : List (String × Value)) (hmne : memberOk m → idOf m ≠ v)
    (hall : ∀ r ∈ st.store, r.id = v → recordMatches r fv = true)
    (hex : ∃ r ∈ st.store, r.id = v ∧ recordMatches r fv = true) :
    (∀ r ∈ (processMember ex st m).store, r.id = v → recordMatches r fv = true) ∧
    (∃ r ∈ (processMember ex st m).store, r.id = v ∧ recordMatches r fv = true) := by
  constructor
  · intro r hr hid
    rcases processMember_store_sub ex st m r hr with h | ⟨hok, hcontra⟩
    · exact hall r h hid
    · exact absurd (hcontra.symm.trans hid) (hmne hok)
  · obtain ⟨r, hr, hid, hm⟩ := hex
    exact ⟨r, processMember_store_preserves ex st m r hr
      (fun hok => by rw [hid]; exact hmne hok), hid, hm⟩

theorem fold_pres_good (ex : List Record) (ms : List Member) (st : LoopState) (v : String)
    (fv : List (String × Value)) (hmne : ∀ m ∈ ms, memberOk m → idOf m ≠ v)
    (hall : ∀ r ∈ st.store, r.id = v → recordMatches r fv = true)
    (hex : ∃ r ∈ st.store, r.id = v ∧ recordMatches r fv = true) :
    (∀ r ∈ (ms.foldl (processMember ex) st).store, r.id = v → recordMatches r fv = true) ∧
    (∃ r ∈ (ms.foldl (processMember ex) st).store, r.id = v ∧ recordMatches r fv = true) := by
  induction ms generalizing st with
  | nil => exact ⟨hall, hex⟩
  | cons m t ih =>
    rw [List.foldl_cons]
    have hstep := step_pres_good ex st m v fv (hmne m (List.mem_cons_self _ _)) hall hex
    exact ih _ (fun m' h' => hmne m' (List.mem_cons_of_mem _ h')) hstep.1 hstep.2

theorem fold_good (ex : List Record) (ms : List Member) (st : LoopState)
    (hok : ∀ m ∈ ms, memberOk m) (hnd : (ms.map idOf).Nodup)
    (hpin : ∀ m ∈ ms,
      (∀ r, findRecord ex (idOf m) = some r → r ∈ st.store) ∧
      (∀ r ∈ st.store, r.id = idOf m → findRecord ex (idOf m) = some r)) :
    ∀ m ∈ ms,
      (∀ r ∈ (ms.foldl (processMember ex) st).store, r.id = idOf m →
        recordMatches r (fvOf m) = true) ∧
      (∃ r ∈ (ms.foldl (processMember ex) st).store, r.id = idOf m ∧
        recordMatches r (fvOf m) = true) := by
  induction ms generalizing st with
  | nil => intro m h; cases h
  | cons m0 t ih =>
    rw [List.map_cons, List.nodup_cons] at hnd
    intro m hm
    rw [List.foldl_cons]
    rcases List.mem_cons.mp hm with rfl | hmt
    · have hest := step_establishes_good ex st m (hok m (List.mem_cons_self _ _))
        (hpin m (List.mem_cons_self _ _)).1 (hpin m (List.mem_cons_self _ _)).2
      exact fold_pres_good ex t _ (idOf m) (fvOf m)
        (fun m' hm' _ he => hnd.1 (he ▸ List.mem_map_of_mem idOf hm'))
        hest.1 hest.2
    · refine ih _ (fun m' h' => hok m' (List.mem_cons_of_mem _ h')) hnd.2 ?_ m hmt
      intro m' hm'
      have hne : memberOk m0 → idOf m0 ≠ idOf m' :=
        fun _ he => hnd.1 (he ▸ List.mem_map_of_mem idOf hm')
      exact step_pinned_pres ex st m0 (idOf m') hne
        (hpin m' (List.mem_cons_of_mem _ hm')).1 (hpin m' (List.mem_cons_of_mem _ hm')).2

theorem fold_noop (ex : List Record) (ms : List Member) (st : LoopState)
    (h : ∀ m ∈ ms, memberOk m ∧
      ∃ rec, findRecord ex (idOf m) = some rec ∧ recordMatches rec (fvOf m) = true) :
    (ms.foldl (processMember ex) st).store = st.store ∧
    (ms.foldl (processMember ex) st).saves = st.saves := by
  induction ms generalizing st with
  | nil => exact ⟨rfl, rfl⟩
  | cons m t ih =>
    obtain ⟨hok, rec, hf, hm⟩ := h m (List.mem_cons_self _ _)
    rw [List.foldl_cons, processMember_found_same ex st m rec hok hf hm]
    exact ih _ (fun m' h' => h m' (List.mem_cons_of_mem _ h'))

theorem processMember_saves_iff (ex : List Record) (st : LoopState) (m : Member)
    (hok : memberOk m) :
    ((processMember ex st m).saves = st.saves ++ [idOf m] ↔
      findRecord ex (idOf m) = none ∨
      ∃ rec, findRecord ex (idOf m) = some rec ∧ recordMatches rec (fvOf m) = false) ∧
    ((processMember ex st m).saves = st.saves ↔
      ∃ rec, findRecord ex (idOf m) = some rec ∧ recordMatches rec (fvOf m) = true) := by
  have hne : st.saves ++ [idOf m] ≠ st.saves := by
    intro hcontra
    have := congrArg List.length hcontra
    simp at this
  rcases processMember_cases ex st m hok with ⟨rec, hf, hm, he⟩ | ⟨rec, hf, hm, he⟩ | ⟨hf, he⟩
  · rw [he]
    refine ⟨⟨fun h => absurd h.symm ?_, fun h => ?_⟩, fun _ => ⟨rec, hf, hm⟩, fun _ => rfl⟩
    · intro hcontra
      have := congrArg List.length hcontra
      simp at this
    · rcases h with h | ⟨rec', hf', hm'⟩
      · rw [hf] at h; cases h
      · rw [hf] at hf'
        injection hf' with h4
        rw [← h4] at hm'
        rw [hm] at hm'
        cases hm'
  · rw [he]
    refine ⟨⟨fun _ => Or.inr ⟨rec, hf, hm⟩, fun _ => rfl⟩, fun h => absurd h hne, ?_⟩
    rintro ⟨rec', hf', hm'⟩
    rw [hf] at hf'
    injection hf' with h4
    rw [← h4] at hm'
    rw [hm] at hm'
    cases hm'
  · rw [he]
    refine ⟨⟨fun _ => Or.inl hf, fun _ => rfl⟩, fun h => absurd h hne, ?_⟩
    rintro ⟨rec', hf', _⟩
    rw [hf] at hf'
    cases hf'

theorem second_pass_clean (input : PassInput) (S : List Record)
    (hlist : input.listErr = false)
    (hok : ∀ m ∈ input.members, memberOk m)
    (hnd : (input.members.map idOf).Nodup)
    (hnz : ∀ m ∈ input.members, idOf m ≠ "")
    (hS : (S.map Record.id).Nodup) :
    reconcilePass input ((reconcilePass input S).store) =
      { store := (reconcilePass input S).store, saves := [], deletes := [] } := by
  have hifneg : ∀ P : List Record, reconcilePass input P =
      { store := (passLoop input P).store.filter
          (fun r => !((passDeletes input P).contains r.id)),
        saves := (passLoop input P).saves,
        deletes := passDeletes input P } := by
    intro P
    unfold reconcilePass
    rw [if_neg (by simp [hlist])]
  have hT : (reconcilePass input S).store =
      (passLoop input S).store.filter (fun r => !((passDeletes input S).contains r.id)) := by
    rw [hifneg]
  have hkeys1 : (passLoop input S).rosterKeys = input.members.map idOf := by
    unfold passLoop
    rw [fold_rosterKeys _ _ _ hok]
    rfl
  have hexnd : ((loadExisting S).map Record.id).Nodup :=
    List.Nodup.sublist (List.Sublist.map Record.id (List.filter_sublist S)) hS
  have hpin : ∀ m ∈ input.members,
      (∀ r, findRecord (loadExisting S) (idOf m) = some r →
        r ∈ (⟨S, [], []⟩ : LoopState).store) ∧
      (∀ r ∈ (⟨S, [], []⟩ : LoopState).store, r.id = idOf m →
        findRecord (loadExisting S) (idOf m) = some r) := by
    intro m hm
    constructor
    · intro r hf
      exact (List.mem_filter.mp (findRecord_some_mem hf)).1
    · intro r hr hid
      have hrex : r ∈ loadExisting S := by
        refine List.mem_filter.mpr ⟨hr, ?_⟩
        rw [hid]
        exact bne_iff_ne.mpr (hnz m hm)
      have h := findRecord_eq_of_nodup hexnd hrex
      rw [hid] at h
      exact h
  have hgood := fold_good (loadExisting S) input.members ⟨S, [], []⟩ hok hnd hpin
  have hgoodT : ∀ m ∈ input.members,
      (∀ r ∈ (reconcilePass input S).store, r.id = idOf m →
        recordMatches r (fvOf m) = true) ∧
      (∃ r ∈ (reconcilePass input S).store, r.id = idOf m ∧
        recordMatches r (fvOf m) = true) := by
    intro m hm
    obtain ⟨hall, r, hr, hid, hmt⟩ := hgood m hm
    constructor
    · intro r' hr' hid'
      rw [hT] at hr'
      exact hall r' (List.mem_filter.mp hr').1 hid'
    · have hnotdel : (passDeletes input S).contains r.id = false := by
        cases hcase : (passDeletes input S).contains r.id with
        | false => rfl
        | true =>
          exfalso
          have hmemdel := contains_iff_mem.mp hcase
          unfold passDeletes at hmemdel
          rcases List.mem_map.mp hmemdel with ⟨s, hs, hsid⟩
          have hsf := List.mem_filter.mp hs
          have hcf : (passLoop input S).rosterKeys.contains s.id = false := by
            simpa using hsf.2
          rw [hsid, hkeys1] at hcf
          have hmem : r.id ∈ input.members.map idOf := by
            rw [hid]
            exact List.mem_map_of_mem idOf hm
          rw [contains_iff_mem.mpr hmem] at hcf
          cases hcf
      refine ⟨r, ?_, hid, hmt⟩
      rw [hT]
      refine List.mem_filter.mpr ⟨hr, ?_⟩
      rw [hnotdel]
      rfl
  have hfound2 : ∀ m ∈ input.members, memberOk m ∧
      ∃ rec, findRecord (loadExisting ((reconcilePass input S).store)) (idOf m) = some rec ∧
        recordMatches rec (fvOf m) = true := by
    intro m hm
    obtain ⟨hallT, r, hrT, hid, hmt⟩ := hgoodT m hm
    refine ⟨hok m hm, ?_⟩
    have hrex2 : r ∈ loadExisting ((reconcilePass input S).store) := by
      refine List.mem_filter.mpr ⟨hrT, ?_⟩
      rw [hid]
      exact bne_iff_ne.mpr (hnz m hm)
    obtain ⟨x, hfx, hxmem, hxid⟩ := findRecord_some_of_mem hrex2
    rw [hid] at hfx
    exact ⟨x, hfx, hallT x (List.mem_filter.mp hxmem).1 (hxid.trans hid)⟩
  have hnoop := fold_noop (loadExisting ((reconcilePass input S).store)) input.members
    ⟨(reconcilePass input S).store, [], []⟩ hfound2
  have hdel2 : passDeletes input ((reconcilePass input S).store) = [] := by
    unfold passDeletes
    rw [List.map_eq_nil_iff, List.filter_eq_nil_iff]
    intro r hrex2
    have hrT : r ∈ (reconcilePass input S).store := (List.mem_filter.mp hrex2).1
    have hrid : (r.id != "") = true := (List.mem_filter.mp hrex2).2
    rw [hT] at hrT
    have hr1 := List.mem_filter.mp hrT
    have hkeys2 : (passLoop input ((reconcilePass input S).store)).rosterKeys =
        input.members.map idOf := by
      unfold passLoop
      rw [fold_rosterKeys _ _ _ hok]
      rfl
    rcases fold_store_sub (loadExisting S) input.members ⟨S, [], []⟩ r hr1.1 with
      hrS | ⟨m, hm, _, hid⟩
    · by_cases hmem : r.id ∈ input.members.map idOf
      · have hc2 : (passLoop input ((reconcilePass input S).store)).rosterKeys.contains r.id
            = true := by
          rw [hkeys2]
          exact contains_iff_mem.mpr hmem
        rw [hc2]
        simp
      · exfalso
        have hrex1 : r ∈ loadExisting S := List.mem_filter.mpr ⟨hrS, hrid⟩
        have hdel1 : r.id ∈ passDeletes input S := by
          unfold passDeletes
          refine List.mem_map.mpr ⟨r, ?_, rfl⟩
          refine List.mem_filter.mpr ⟨hrex1, ?_⟩
          rw [hkeys1]
          have hc : (input.members.map idOf).contains r.id = false := by
            cases hcase : (input.members.map idOf).contains r.id with
            | false => rfl
            | true => exact absurd (contains_iff_mem.mp hcase) hmem
          rw [hc]
          rfl
        have h12 := hr1.2
        rw [contains_iff_mem.mpr hdel1] at h12
        cases h12
    · have hmem : r.id ∈ input.members.map idOf := hid ▸ List.mem_map_of_mem idOf hm
      have hc2 : (passLoop input ((reconcilePass input S).store)).rosterKeys.contains r.id
          = true := by
        rw [hkeys2]
        exact contains_iff_mem.mpr hmem
      rw [hc2]
      simp
  have hnoop1 : (passLoop input ((reconcilePass input S).store)).store =
      (reconcilePass input S).store := hnoop.1
  have hnoop2 : (passLoop input ((reconcilePass input S).store)).saves = [] := hnoop.2
  rw [hifneg ((reconcilePass input S).store), hdel2, hnoop1, hnoop2]
  simp

/-! ## Theorems -/

/-- C1: the claim says that when the roster fetch fails the pass aborts
with the record store completely unchanged.  The source only logs the
error and continues; with the error's zero-value (empty) roster no id is
marked as seen, and the cleanup phase deletes every existing record.
Evaluated at a pass with a failing roster fetch and one stored record:
the record is deleted and the store ends empty, contradicting the claim. -/
theorem c1_roster_error_pass_still_mutates :
    (reconcilePass c1Input [c1Prior]).deletes = ["1"] ∧
    (reconcilePass c1Input [c1Prior]).store = [] := by decide

/-- C2: the claim says a member skipped after exhausted retries keeps its
existing record, the cleanup phase not deleting it.  The source never
marks a skipped member's id as seen, so the cleanup phase deletes the
member's record.  Evaluated at a one-member roster whose fetch yields a
nil header on all three attempts, with the member's record (id 7) stored:
the pass deletes it, so the store does not remain as in S. -/
theorem c2_skipped_member_record_deleted :
    (reconcilePass c2Input [c2Prior]).deletes = ["7"] ∧
    (reconcilePass c2Input [c2Prior]).store = [] ∧
    (reconcilePass c2Input [c2Prior]).store ≠ [c2Prior] := by decide

/-- C3: a member whose profile fetch yields no response metadata on every
attempt is fetched exactly 3 times (one initial attempt plus 2 retries),
sleeping attempt-index times the fixed unit before each retry, and is then
skipped: processing the member leaves the loop state unchanged. -/
theorem c3_retry_bound (m : Member)
    (h : ∀ i, i < maxRetries → (m.attempts i).headerPresent = false) :
    (fetchWithRetries m.attempts).2.1 = 3 ∧
    (fetchWithRetries m.attempts).2.2 = [1 * sleepUnitMs, 2 * sleepUnitMs] ∧
    ∀ ex st, processMember ex st m = st := by
  have h0 := h 0 (by decide)
  have h1 := h 1 (by decide)
  have h2 := h 2 (by decide)
  have hrange : List.range' 1 (maxRetries - 1) = [1, 2] := rfl
  have hfetch : fetchWithRetries m.attempts =
      (m.attempts 2, 3, [1 * sleepUnitMs, 2 * sleepUnitMs]) := by
    simp [fetchWithRetries, hrange, retryAux, h0, h1]
  refine ⟨by rw [hfetch], by rw [hfetch], ?_⟩
  intro ex st
  unfold processMember fetchRes
  rw [hfetch]
  by_cases he : (m.attempts 2).isError = true
  · simp [he]
  · simp [he, h2]

/-- Closed witness for `c3_retry_bound` at a concrete member. -/
theorem c3_retry_bound_witness :
    (fetchWithRetries c3Member.attempts).2.1 = 3 ∧
    (fetchWithRetries c3Member.attempts).2.2 = [1 * sleepUnitMs, 2 * sleepUnitMs] ∧
    processMember [] ⟨[], [], []⟩ c3Member = ⟨[], [], []⟩ :=
  ⟨(c3_retry_bound c3Member (by decide)).1,
   (c3_retry_bound c3Member (by decide)).2.1,
   (c3_retry_bound c3Member (by decide)).2.2 [] ⟨[], [], []⟩⟩

/-- C4: the normalization maps an integral float to its integer string
form and a non-integral float to its canonical decimal string; under it
the number 5.0 equals the string "5", 5.5 equals "5.5", and 5.0 does not
equal 6.0. -/
theorem c4_normalization :
    (∀ q : ℚ, q.den = 1 → normalizeValue (.num q) = toString q.num) ∧
    (∀ q : ℚ, q.den ≠ 1 → normalizeValue (.num q) = ratDecString q) ∧
    normalizeValue (.num 5) = normalizeValue (.str "5") ∧
    normalizeValue (.num ratFiveFive) = normalizeValue (.str "5.5") ∧
    normalizeValue (.num 5) ≠ normalizeValue (.num 6) := by
  refine ⟨fun q h => by simp [normalizeValue, h],
          fun q h => by simp [normalizeValue, h],
          by decide, by decide, by decide⟩

/-- Closed witness for `c4_normalization` at concrete rationals. -/
theorem c4_normalization_witness :
    ((5 : ℚ).den = 1 ∧ normalizeValue (.num 5) = toString (5 : ℚ).num) ∧
    (ratFiveFive.den ≠ 1 ∧ normalizeValue (.num ratFiveFive) = ratDecString ratFiveFive) :=
  ⟨⟨by decide, c4_normalization.1 5 (by decide)⟩,
   ⟨by decide, c4_normalization.2.1 ratFiveFive (by decide)⟩⟩

/-- C5: a successfully fetched member is saved exactly when it is new or
some candidate field differs from the stored value under normalization
(and is not saved exactly when a stored record exists and fully matches);
consequently a second pass over the same remote data (same fetch results,
distinct non-empty member ids, prior store with distinct ids) performs
zero writes: no saves and no deletes. -/
theorem c5_write_iff_diff_and_idempotent :
    (∀ (ex : List Record) (st : LoopState) (m : Member), memberOk m →
      ((processMember ex st m).saves = st.saves ++ [idOf m] ↔
        findRecord ex (idOf m) = none ∨
        ∃ rec, findRecord ex (idOf m) = some rec ∧ recordMatches rec (fvOf m) = false) ∧
      ((processMember ex st m).saves = st.saves ↔
        ∃ rec, findRecord ex (idOf m) = some rec ∧ recordMatches rec (fvOf m) = true)) ∧
    (∀ (input : PassInput) (S : List Record),
      input.listErr = false →
      (∀ m ∈ input.members, memberOk m) →
      (input.members.map idOf).Nodup →
      (∀ m ∈ input.members, idOf m ≠ "") →
      (S.map Record.id).Nodup →
      reconcilePass input ((reconcilePass input S).store) =
        { store := (reconcilePass input S).store, saves := [], deletes := [] }) :=
  ⟨fun ex st m hok => processMember_saves_iff ex st m hok,
   fun input S h1 h2 h3 h4 h5 => second_pass_clean input S h1 h2 h3 h4 h5⟩

/-- Closed witness for `c5_write_iff_diff_and_idempotent`: a one-member
roster fetched successfully over an empty prior store; the second pass
performs no writes. -/
theorem c5_write_iff_diff_and_idempotent_witness :
    ((processMember [] ⟨[], [], []⟩ c5Member).saves = [] ++ [idOf c5Member] ↔
      findRecord [] (idOf c5Member) = none ∨
      ∃ rec, findRecord [] (idOf c5Member) = some rec ∧
        recordMatches rec (fvOf c5Member) = false) ∧
    reconcilePass c5Input ((reconcilePass c5Input []).store) =
      { store := (reconcilePass c5Input []).store, saves := [], deletes := [] } :=
  ⟨(c5_write_iff_diff_and_idempotent.1 [] ⟨[], [], []⟩ c5Member (by decide)).1,
   c5_write_iff_diff_and_idempotent.2 c5Input [] rfl (by decide) (by decide)
     (by decide) (by decide)⟩

/-- C6: when the resolved local digest equals the resolved remote digest
the check returns as a no-op: the engine-call trace is just the local
inspect — no pull, no container listing, no restart. -/
theorem c6_noop (env : UpdateEnv) (d : String)
    (hr : getRemoteDigest env.token env.manifest = .ok d)
    (hl : getLocalDigest env.inspect = .ok d) :
    (watchForUpdates env).1 = [.inspectLocal] ∧
    (watchForUpdates env).2 = .returned ∧
    EngineCall.pull ∉ (watchForUpdates env).1 ∧
    EngineCall.listContainers ∉ (watchForUpdates env).1 ∧
    ∀ cid, EngineCall.restart cid ∉ (watchForUpdates env).1 := by
  have h : watchForUpdates env = ([.inspectLocal], .returned) := by
    simp [watchForUpdates, hr, hl]
  rw [h]
  exact ⟨rfl, rfl, by simp, by simp, fun cid => by simp⟩

/-- Closed witness for `c6_noop`. -/
theorem c6_noop_witness :
    (watchForUpdates c6Env).1 = [.inspectLocal] ∧
    (watchForUpdates c6Env).2 = .returned :=
  ⟨(c6_noop c6Env "sha256:AAA" (by decide) (by decide)).1,
   (c6_noop c6Env "sha256:AAA" (by decide) (by decide)).2.1⟩

/-- C7: when the remote digest differs from the local one and every
sub-call succeeds, the controller performs exactly one pull followed by
exactly one restart of the container id produced by the ancestry listing,
in that order: the trace is inspect, pull, list, restart of that id. -/
theorem c7_full_path (env : UpdateEnv) (rd ld cid : String)
    (hr : getRemoteDigest env.token env.manifest = .ok rd)
    (hl : getLocalDigest env.inspect = .ok ld)
    (hne : ld ≠ rd)
    (hp : pullImage env.pullResp = .ok ())
    (hc : getContainerID env.listResp = .ok cid)
    (hcne : cid ≠ "")
    (hrs : restartContainer env.restartStatus cid = .ok ()) :
    watchForUpdates env =
      ([.inspectLocal, .pull, .listContainers, .restart cid], .returned) := by
  simp [watchForUpdates, hr, hl, hne, hp, hc, hcne, hrs]

/-- Closed witness for `c7_full_path`. -/
theorem c7_full_path_witness :
    watchForUpdates c7Env =
      ([.inspectLocal, .pull, .listContainers, .restart "cid1"], .returned) :=
  c7_full_path c7Env "sha256:AAA" "sha256:BBB" "cid1"
    (by decide) (by decide) (by decide) (by decide) (by decide) (by decide) (by decide)

/-- C8: a successful pull followed by an empty ancestry listing exits the
process with status 1 and never issues a restart call. -/
theorem c8_missing_target (env : UpdateEnv) (rd ld : String)
    (hr : getRemoteDigest env.token env.manifest = .ok rd)
    (hl : getLocalDigest env.inspect = .ok ld)
    (hne : ld ≠ rd)
    (hp : pullImage env.pullResp = .ok ())
    (hc : getContainerID env.listResp = .ok "") :
    (watchForUpdates env).2 = .exited 1 ∧
    (watchForUpdates env).1 = [.inspectLocal, .pull, .listContainers] ∧
    ∀ cid, EngineCall.restart cid ∉ (watchForUpdates env).1 := by
  have h : watchForUpdates env = ([.inspectLocal, .pull, .listContainers], .exited 1) := by
    simp [watchForUpdates, hr, hl, hne, hp, hc]
  rw [h]
  exact ⟨rfl, rfl, fun cid => by simp⟩

/-- Closed witness for `c8_missing_target`. -/
theorem c8_missing_target_witness :
    (watchForUpdates c8Env).2 = .exited 1 ∧
    (watchForUpdates c8Env).1 = [.inspectLocal, .pull, .listContainers] :=
  ⟨(c8_missing_target c8Env "sha256:AAA" "sha256:BBB"
      (by decide) (by decide) (by decide) (by decide) (by decide)).1,
   (c8_missing_target c8Env "sha256:AAA" "sha256:BBB"
      (by decide) (by decide) (by decide) (by decide) (by decide)).2.1⟩

/-- C9: resolving the local digest maps an engine 404 to an empty digest
with no error; any other non-200 is an error; and a local-digest error
ends the pass right after the inspect, before any pull, listing or
restart. -/
theorem c9_local_digest_errors :
    (∀ r : InspectResp, r.status = 404 → getLocalDigest r = .ok "") ∧
    (∀ r : InspectResp, r.status ≠ 404 → r.status ≠ 200 →
      getLocalDigest r = .error "image inspect failed") ∧
    (∀ (env : UpdateEnv) (rd e : String),
      getRemoteDigest env.token env.manifest = .ok rd →
      getLocalDigest env.inspect = .error e →
      watchForUpdates env = ([.inspectLocal], .returned)) := by
  refine ⟨fun r h => by simp [getLocalDigest, h],
          fun r h404 h200 => by simp [getLocalDigest, h404, h200],
          fun env rd e hr hl => by simp [watchForUpdates, hr, hl]⟩

/-- Closed witness for `c9_local_digest_errors`. -/
theorem c9_local_digest_errors_witness :
    getLocalDigest { status := 404, repoDigests := none } = .ok "" ∧
    getLocalDigest { status := 500, repoDigests := none } = .error "image inspect failed" ∧
    watchForUpdates c9Env = ([.inspectLocal], .returned) :=
  ⟨c9_local_digest_errors.1 { status := 404, repoDigests := none } rfl,
   c9_local_digest_errors.2.1 { status := 500, repoDigests := none } (by decide) (by decide),
   c9_local_digest_errors.2.2 c9Env "sha256:AAA" "image inspect failed" (by decide) (by decide)⟩

/-- A resolved remote digest is never the empty string: a missing
content-digest header is already an error. -/
theorem remoteDigest_ne_empty {tok : TokenResp} {man : ManifestResp} {rd : String}
    (h : getRemoteDigest tok man = .ok rd) : rd ≠ "" := by
  unfold getRemoteDigest at h
  cases hg : getGHCRToken tok with
  | error e => rw [hg] at h; cases h
  | ok t =>
    rw [hg] at h
    by_cases h1 : man.status ≠ 200
    · simp [h1] at h
    · simp only [h1, if_false] at h
      by_cases h2 : man.digestHeader = ""
      · simp [h2] at h
      · simp only [h2, if_false, if_neg] at h
        cases h
        exact h2

/-- C10: a 200 inspect none of whose RepoDigests entries carries the
configured image-name marker resolves to the empty digest with no error,
exactly like an absent image; a differing remote digest then makes the
controller issue a pull. -/
theorem c10_no_marker_is_absent (r : InspectResp) (ds : List String)
    (h200 : r.status = 200) (hds : r.repoDigests = some ds)
    (hnone : ∀ d ∈ ds, strHasPre digestPre d = false) :
    getLocalDigest r = .ok "" ∧
    (∀ (env : UpdateEnv) (rd : String), env.inspect = r →
      getRemoteDigest env.token env.manifest = .ok rd →
      EngineCall.pull ∈ (watchForUpdates env).1) := by
  have hfind : ds.find? (fun d => strHasPre digestPre d) = none := by
    rw [List.find?_eq_none]
    intro d hd
    simp [hnone d hd]
  have hloc : getLocalDigest r = .ok "" := by
    simp [getLocalDigest, h200, hds, hfind]
  refine ⟨hloc, fun env rd henv hr => ?_⟩
  have hl : getLocalDigest env.inspect = .ok "" := by rw [henv]; exact hloc
  have hne : ("" : String) ≠ rd := fun hh => remoteDigest_ne_empty hr hh.symm
  simp only [watchForUpdates, hr, hl, if_neg hne]
  rcases hp : pullImage env.pullResp with e | u
  · simp [hp]
  · rcases hc : getContainerID env.listResp with e | cid
    · simp [hc]
    · by_cases hcid : cid = ""
      · simp [hc, hcid]
      · rcases hrs : restartContainer env.restartStatus cid with e | u
        · simp [hc, hcid, hrs]
        · simp [hc, hcid, hrs]

/-- Closed witness for `c10_no_marker_is_absent`. -/
theorem c10_no_marker_is_absent_witness :
    getLocalDigest c10Inspect = .ok "" ∧
    EngineCall.pull ∈ (watchForUpdates c10Env).1 :=
  ⟨(c10_no_marker_is_absent c10Inspect ["docker.io/other/image@sha256:XYZ"]
      rfl rfl (by decide)).1,
   (c10_no_marker_is_absent c10Inspect ["docker.io/other/image@sha256:XYZ"]
      rfl rfl (by decide)).2 c10Env "sha256:AAA" rfl (by decide)⟩

end Blizbase
